import Mathlib

/-!
Verification of the mean-variance optimization core of the
robust-factor-model repository (src/mean_variance_optimization.py).

The function mean_variance_sharpe_maximization(returns, rf) there:
  * computes mu = returns.mean() and Sigma = returns.cov()  (pandas: the
    column arithmetic average, and the sample covariance with ddof = 1);
  * builds the QP  minimize w^T Sigma w  subject to  mu^T w - rf == 1,
    w >= 0, and hands it to an external convex solver (cvxpy/ECOS);
  * if the solver produced no value it raises the single generic
    ValueError "Optimization failed: no solution found.";
  * otherwise it returns w_opt / sum(w_opt), indexed by the input columns.

The embedding below is over exact rationals; the external solver is an
oracle argument (a function from the objective and the constraint
predicate to an optional solution vector), so theorems about the solve
are stated relative to the value the oracle returned and to the
optimality predicate that characterizes a correct QP solver.
-/

namespace RobustFactorModel

/-- A returns table: T time-indexed observations of n assets, every row
holding one rational return per asset, in a fixed column order. -/
def ReturnsTable (T n : ℕ) : Type := Fin T → Fin n → ℚ

/-- Column arithmetic average, the semantics of the source's
`returns.mean()` (pandas: column sum divided by the number of rows). -/
def sampleMean {T n : ℕ} (R : ReturnsTable T n) (i : Fin n) : ℚ :=
  (∑ t, R t i) / (T : ℚ)

/-- Sample covariance, the semantics of the source's `returns.cov()`
(pandas default ddof = 1: de-meaned column products divided by T - 1). -/
def sampleCov {T n : ℕ} (R : ReturnsTable T n) (i j : Fin n) : ℚ :=
  (∑ t, (R t i - sampleMean R i) * (R t j - sampleMean R j)) / ((T : ℚ) - 1)

/-- The quadratic objective the source builds with
`cp.quad_form(w, Sigma)`: the double sum of w i * Sigma i j * w j. -/
def quadForm {n : ℕ} (S : Fin n → Fin n → ℚ) (w : Fin n → ℚ) : ℚ :=
  ∑ i, ∑ j, w i * S i j * w j

/-- The source's constraint list `[mu.T @ w - rf == 1, w >= 0]`:
unit excess return over rf as a scalar, and no short selling. -/
def qpFeasible {n : ℕ} (mu : Fin n → ℚ) (rf : ℚ) (w : Fin n → ℚ) : Prop :=
  ((∑ i, mu i * w i) - rf = 1) ∧ ∀ i, 0 ≤ w i

/-- Global optimality for the QP the source builds: feasible, and of
minimal objective among all feasible vectors.  A correct convex QP
solver returns exactly such a point when one exists. -/
def isOptimal {n : ℕ} (mu : Fin n → ℚ) (S : Fin n → Fin n → ℚ) (rf : ℚ)
    (w : Fin n → ℚ) : Prop :=
  qpFeasible mu rf w ∧ ∀ v, qpFeasible mu rf v → quadForm S w ≤ quadForm S v

/-- The external QP solver (cvxpy with ECOS in the source), abstracted as
an oracle: given the objective and the constraint predicate it may return
a solution vector, or nothing (infeasibility, non-convergence). -/
def Solver (n : ℕ) : Type :=
  ((Fin n → ℚ) → ℚ) → ((Fin n → ℚ) → Prop) → Option (Fin n → ℚ)

/-- A constant solver outcome, used to instantiate oracle runs. -/
def solverConst {n : ℕ} (w : Fin n → ℚ) : Solver n := fun _ _ => some w

/-- A solver that returns no value (the outcome the source maps to its
generic ValueError). -/
def solverNone (n : ℕ) : Solver n := fun _ _ => none

/-- The message of the one exception the source itself raises:
ValueError("Optimization failed: no solution found."). -/
def optimizationFailedMsg : String := "Optimization failed: no solution found."

/-- The source's normalization step `w_opt / np.sum(w_opt)`: every entry
divided by the raw sum, with no guard on that sum. -/
def normalizeWeights {n : ℕ} (w : Fin n → ℚ) : Fin n → ℚ :=
  fun i => w i / (∑ j, w j)

/-- Lines 28-47 of the source: build the QP from the statistics, run the
solver, raise the generic error when it returned nothing, otherwise
normalize by the raw sum and return. -/
def portfolioOptimizer {n : ℕ} (mu : Fin n → ℚ) (S : Fin n → Fin n → ℚ)
    (rf : ℚ) (solver : Solver n) : Except String (Fin n → ℚ) :=
  match solver (quadForm S) (qpFeasible mu rf) with
  | none => Except.error optimizationFailedMsg
  | some wOpt => Except.ok (normalizeWeights wOpt)

/-- The whole source function: derive mean and covariance from the table,
then solve and normalize.  The output keeps the input column indexing. -/
def mean_variance_sharpe_maximization {T n : ℕ} (R : ReturnsTable T n)
    (rf : ℚ) (solver : Solver n) : Except String (Fin n → ℚ) :=
  portfolioOptimizer (sampleMean R) (sampleCov R) rf solver

/-- The spec's Return Statistics Estimator, written from its words:
mean = arithmetic average per asset across all observations. -/
def spec_meanVector {T n : ℕ} (R : ReturnsTable T n) (i : Fin n) : ℚ :=
  (∑ t, R t i) / (T : ℚ)

/-- The spec's covariance, written from its words: sample covariance with
Bessel's correction, dividing by T - 1. -/
def spec_covariance {T n : ℕ} (R : ReturnsTable T n) (i j : Fin n) : ℚ :=
  (∑ t, (R t i - spec_meanVector R i) * (R t j - spec_meanVector R j)) /
    ((T : ℚ) - 1)

/-- The spec's QP objective, written from its math block: w^T (Sigma w). -/
def spec_objective {n : ℕ} (S : Fin n → Fin n → ℚ) (w : Fin n → ℚ) : ℚ :=
  ∑ i, w i * (∑ j, S i j * w j)

/-- The spec's QP constraint set, written from its math block:
mu^T w - rf = 1 and w i >= 0 for all i. -/
def spec_constraint {n : ℕ} (mu : Fin n → ℚ) (rf : ℚ) (w : Fin n → ℚ) : Prop :=
  ((∑ i, mu i * w i) - rf = 1) ∧ ∀ i, 0 ≤ w i

/-- The run produced a weight vector (the source returned a pd.Series
rather than raising). -/
def returnsWeights {n : ℕ} (r : Except String (Fin n → ℚ)) : Prop :=
  ∃ v, r = Except.ok v

/-! Concrete tables used to instantiate theorems. -/

/-- Two assets over three observations; means (1, 1), covariance matrix
diag(1, 3). -/
def tableA : ReturnsTable 3 2 := ![![2, 2], ![1, -1], ![0, 2]]

/-- One asset over two observations with values 1/10 and 3/10; mean 1/5,
variance 1/50. -/
def tableB : ReturnsTable 2 1 := ![![1/10], ![3/10]]

/-- Two assets over two observations with constant columns; means
(-1/5, -3/10), zero covariance matrix. -/
def tableC : ReturnsTable 2 2 := ![![-1/5, -3/10], ![-1/5, -3/10]]

/-- One asset with a single observation (T = 1). -/
def tableD : ReturnsTable 1 1 := ![![1/10]]

/-- One asset over two observations with values -3/10 and -1/10;
mean -1/5. -/
def tableE : ReturnsTable 2 1 := ![![-3/10], ![-1/10]]

/-! Helper lemmas shared by the claim theorems. -/

/-- The source raises exactly one exception itself: whatever run ends in an
error, the message is the generic one from line 45 of the source. -/
lemma error_message_unique {T n : ℕ} (R : ReturnsTable T n) (rf : ℚ)
    (solver : Solver n) (msg : String)
    (h : mean_variance_sharpe_maximization R rf solver = Except.error msg) :
    msg = optimizationFailedMsg := by
  unfold mean_variance_sharpe_maximization portfolioOptimizer at h
  cases hs : solver (quadForm (sampleCov R)) (qpFeasible (sampleMean R) rf) with
  | none =>
    rw [hs] at h
    injection h with h2
    exact h2.symm
  | some w =>
    rw [hs] at h
    exact Except.noConfusion h

/-- When the QP has no feasible point, a solver that only ever returns
feasible vectors returns nothing, and the source raises its generic error. -/
lemma generic_error_of_infeasible {T n : ℕ} (R : ReturnsTable T n) (rf : ℚ)
    (solver : Solver n)
    (hinf : ∀ w, ¬ qpFeasible (sampleMean R) rf w)
    (hsound : ∀ w,
      solver (quadForm (sampleCov R)) (qpFeasible (sampleMean R) rf) = some w →
      qpFeasible (sampleMean R) rf w) :
    mean_variance_sharpe_maximization R rf solver
      = Except.error optimizationFailedMsg := by
  unfold mean_variance_sharpe_maximization portfolioOptimizer
  cases hs : solver (quadForm (sampleCov R)) (qpFeasible (sampleMean R) rf) with
  | none => rfl
  | some w => exact absurd (hsound w hs) (hinf w)

/-- If every column mean is nonpositive and rf > -1, the constraint
mu^T w - rf = 1 meets no w >= 0: the QP the source builds is infeasible. -/
lemma infeasible_of_nonpos_means {T n : ℕ} (R : ReturnsTable T n) (rf : ℚ)
    (hall : ∀ k, sampleMean R k ≤ 0) (hrf : -1 < rf) :
    ∀ w, ¬ qpFeasible (sampleMean R) rf w := by
  rintro w ⟨hs, hnn⟩
  have hsum : (∑ i, sampleMean R i * w i) ≤ 0 := by
    refine Finset.sum_nonpos fun i _ => ?_
    have h := mul_nonneg (neg_nonneg.mpr (hall i)) (hnn i)
    rw [neg_mul] at h
    linarith
  linarith

/-- Claim C9: the model is a pure function of the table, the rate and the
solver outcome: two runs with identical inputs return entrywise-identical
weight vectors, in particular within the 1e-6 tolerance. -/
theorem C9_deterministic {T n : ℕ} (R R2 : ReturnsTable T n) (rf rf2 : ℚ)
    (s s2 : Solver n) (w w2 : Fin n → ℚ)
    (hR : R = R2) (hrf : rf = rf2) (hs : s = s2)
    (h1 : mean_variance_sharpe_maximization R rf s = Except.ok w)
    (h2 : mean_variance_sharpe_maximization R2 rf2 s2 = Except.ok w2) :
    w = w2 ∧ ∀ i, |w i - w2 i| ≤ 1 / 1000000 := by
  subst hR hrf hs
  have h := h1.symm.trans h2
  injection h with h3
  subst h3
  exact ⟨rfl, fun i => by rw [sub_self, abs_zero]; norm_num⟩

/-- Witness for C9 at a concrete table, rate and solver outcome. -/
theorem C9_deterministic_witness :
    normalizeWeights (![3/4, 1/4] : Fin 2 → ℚ) = normalizeWeights ![3/4, 1/4]
    ∧ ∀ i, |normalizeWeights (![3/4, 1/4] : Fin 2 → ℚ) i
        - normalizeWeights (![3/4, 1/4] : Fin 2 → ℚ) i| ≤ 1 / 1000000 :=
  C9_deterministic tableA tableA 0 0 (solverConst ![3/4, 1/4])
    (solverConst ![3/4, 1/4]) (normalizeWeights ![3/4, 1/4])
    (normalizeWeights ![3/4, 1/4]) rfl rfl rfl rfl rfl

/-- Claim C5 as the code has it: with T = 1 the source performs no
observation-count check and defines no InsufficientDataError; any error its
own raise site produces carries the one generic message. -/
theorem C5_no_insufficient_data_error {n : ℕ} (R : ReturnsTable 1 n) (rf : ℚ)
    (solver : Solver n) (msg : String)
    (h : mean_variance_sharpe_maximization R rf solver = Except.error msg) :
    msg = optimizationFailedMsg :=
  error_message_unique R rf solver msg h

/-- Witness for C5: a T = 1 run whose only failure is the generic message. -/
theorem C5_no_insufficient_data_error_witness :
    mean_variance_sharpe_maximization tableD 0 (solverNone 1)
      = Except.error optimizationFailedMsg
    ∧ optimizationFailedMsg = optimizationFailedMsg :=
  ⟨rfl, C5_no_insufficient_data_error tableD 0 (solverNone 1)
    optimizationFailedMsg rfl⟩

/-- Counterexample to C5 as claimed: on a T = 1 table every possible run
either returns a weight vector or fails with the generic message, so no
distinct InsufficientDataError is ever raised. -/
theorem C5_counterexample :
    (∀ solver : Solver 1, ∀ msg : String,
        mean_variance_sharpe_maximization tableD 0 solver = Except.error msg →
        msg = optimizationFailedMsg)
    ∧ mean_variance_sharpe_maximization tableD 0 (solverNone 1)
        = Except.error optimizationFailedMsg :=
  ⟨fun solver msg h => error_message_unique tableD 0 solver msg h, rfl⟩

/-- Claim C6 as the code has it: the source divides by the raw sum with no
guard, so whenever the solver returns a vector — even one summing to zero —
the run returns the divided vector and never any error. -/
theorem C6_no_normalization_guard {n : ℕ} (mu : Fin n → ℚ)
    (S : Fin n → Fin n → ℚ) (rf : ℚ) (solver : Solver n) (w : Fin n → ℚ)
    (_hsum : (∑ j, w j) = 0)
    (hsol : solver (quadForm S) (qpFeasible mu rf) = some w) :
    portfolioOptimizer mu S rf solver = Except.ok (normalizeWeights w)
    ∧ ∀ msg, portfolioOptimizer mu S rf solver ≠ Except.error msg := by
  have hok : portfolioOptimizer mu S rf solver
      = Except.ok (normalizeWeights w) := by
    unfold portfolioOptimizer
    rw [hsol]
  exact ⟨hok, fun msg hbad => Except.noConfusion (hok.symm.trans hbad)⟩

/-- Witness for C6: a zero-sum solver solution still yields an ok result. -/
theorem C6_no_normalization_guard_witness :
    portfolioOptimizer (sampleMean tableB) (sampleCov tableB) (-1)
        (solverConst ![0]) = Except.ok (normalizeWeights ![0])
    ∧ ∀ msg, portfolioOptimizer (sampleMean tableB) (sampleCov tableB) (-1)
        (solverConst ![0]) ≠ Except.error msg :=
  C6_no_normalization_guard (sampleMean tableB) (sampleCov tableB) (-1)
    (solverConst ![0]) ![0] (by simp) rfl

/-- The spec's statistics coincide with the source's pandas statistics. -/
lemma spec_stats_eq {T n : ℕ} (R : ReturnsTable T n) :
    spec_meanVector R = sampleMean R ∧ spec_covariance R = sampleCov R :=
  ⟨rfl, rfl⟩

/-- The double-sum objective the source builds equals the spec's
w^T (Sigma w) form. -/
lemma quadForm_eq_spec {n : ℕ} (S : Fin n → Fin n → ℚ) :
    quadForm S = spec_objective S := by
  funext w
  unfold quadForm spec_objective
  refine Finset.sum_congr rfl fun i _ => ?_
  rw [Finset.mul_sum]
  refine Finset.sum_congr rfl fun j _ => ?_
  ring

/-- Claim C1: the source builds exactly the spec's QP — same objective on
the spec's covariance, same constraint set on the spec's mean vector and
the supplied rf — and, when the solver hands back a solution, returns that
solution rescaled by its sum. -/
theorem C1_solves_spec_qp {T n : ℕ} (R : ReturnsTable T n) (rf : ℚ)
    (solver : Solver n) (w : Fin n → ℚ)
    (hsol : solver (quadForm (sampleCov R)) (qpFeasible (sampleMean R) rf)
      = some w) :
    quadForm (sampleCov R) = spec_objective (spec_covariance R)
    ∧ qpFeasible (sampleMean R) rf = spec_constraint (spec_meanVector R) rf
    ∧ mean_variance_sharpe_maximization R rf solver
        = Except.ok (fun i => w i / ∑ j, w j) := by
  refine ⟨?_, rfl, ?_⟩
  · rw [(spec_stats_eq R).2]
    exact quadForm_eq_spec (sampleCov R)
  · unfold mean_variance_sharpe_maximization portfolioOptimizer
    rw [hsol]
    rfl

/-- Witness for C1 at a concrete table, rate and solver outcome. -/
theorem C1_solves_spec_qp_witness :
    quadForm (sampleCov tableB) = spec_objective (spec_covariance tableB)
    ∧ qpFeasible (sampleMean tableB) 0 = spec_constraint (spec_meanVector tableB) 0
    ∧ mean_variance_sharpe_maximization tableB 0 (solverConst ![5])
        = Except.ok (fun i => (![5] : Fin 1 → ℚ) i / ∑ j, (![5] : Fin 1 → ℚ) j) :=
  C1_solves_spec_qp tableB 0 (solverConst ![5]) ![5] rfl

/-- Claim C4: the estimator's mean is the arithmetic average over the T
observations, its covariance is the de-meaned product sum divided by T - 1
(Bessel), it agrees with the spec's estimator, and the covariance matrix is
symmetric (it is n x n by construction). -/
theorem C4_return_statistics {T n : ℕ} (R : ReturnsTable T n) :
    (∀ i, sampleMean R i = (∑ t, R t i) / (T : ℚ))
    ∧ (∀ i j, sampleCov R i j
        = (∑ t, (R t i - sampleMean R i) * (R t j - sampleMean R j))
          / ((T : ℚ) - 1))
    ∧ (∀ i, sampleMean R i = spec_meanVector R i)
    ∧ (∀ i j, sampleCov R i j = spec_covariance R i j)
    ∧ (∀ i j, sampleCov R i j = sampleCov R j i) := by
  refine ⟨fun i => rfl, fun i j => rfl, fun i => rfl, fun i j => rfl,
    fun i j => ?_⟩
  unfold sampleCov
  congr 1
  exact Finset.sum_congr rfl fun t _ => mul_comm _ _

/-- Claim C3, amended to the code: when the QP is genuinely infeasible —
for instance whenever every column mean is nonpositive and rf > -1 — a
solver that returns only feasible points returns nothing and the source
raises its one generic ValueError, not a distinct InfeasibleProblemError. -/
theorem C3_generic_error_when_infeasible {T n : ℕ} (R : ReturnsTable T n)
    (rf : ℚ) (solver : Solver n)
    (hall : ∀ k, sampleMean R k ≤ 0) (hrf : -1 < rf)
    (hsound : ∀ w,
      solver (quadForm (sampleCov R)) (qpFeasible (sampleMean R) rf) = some w →
      qpFeasible (sampleMean R) rf w) :
    (∀ w, ¬ qpFeasible (sampleMean R) rf w)
    ∧ mean_variance_sharpe_maximization R rf solver
        = Except.error optimizationFailedMsg := by
  have hinf := infeasible_of_nonpos_means R rf hall hrf
  exact ⟨hinf, generic_error_of_infeasible R rf solver hinf hsound⟩

/-- Witness for the amended C3: a table with negative means and rf = -1/2
makes the QP infeasible and the run end in the generic error. -/
theorem C3_generic_error_when_infeasible_witness :
    (∀ w, ¬ qpFeasible (sampleMean tableC) (-1/2) w)
    ∧ mean_variance_sharpe_maximization tableC (-1/2) (solverNone 2)
        = Except.error optimizationFailedMsg :=
  C3_generic_error_when_infeasible tableC (-1/2) (solverNone 2)
    (fun k => by fin_cases k <;> norm_num [sampleMean, tableC, Fin.sum_univ_two])
    (by norm_num)
    (fun w h => by simp [solverNone] at h)

/-- At rf = 1/2 the one-asset QP over tableB has the single feasible point
w = 15/2, which is therefore optimal. -/
lemma tableB_rf_half_optimal :
    isOptimal (sampleMean tableB) (sampleCov tableB) (1/2) ![15/2] := by
  have hm : sampleMean tableB 0 = 1/5 := by
    norm_num [sampleMean, tableB, Fin.sum_univ_two]
  constructor
  · refine ⟨?_, fun i => by fin_cases i <;> norm_num⟩
    rw [Fin.sum_univ_one, hm]
    norm_num
  · intro v hv
    have hv0 : v 0 = 15/2 := by
      have hc := hv.1
      rw [Fin.sum_univ_one, hm] at hc
      linarith
    have hq : ∀ u : Fin 1 → ℚ,
        quadForm (sampleCov tableB) u = u 0 * sampleCov tableB 0 0 * u 0 := by
      intro u
      rw [quadForm, Fin.sum_univ_one, Fin.sum_univ_one]
    rw [hq, hq, hv0]
    norm_num

/-- Counterexample to C3 as claimed: on tableB with rf = 1/2 every asset's
mean (1/5) is at most rf, yet the QP is solvable — w = 15/2 is its optimum —
and the source returns the weight vector (1.0), raising nothing. -/
theorem C3_counterexample :
    (∀ k, sampleMean tableB k ≤ 1/2)
    ∧ isOptimal (sampleMean tableB) (sampleCov tableB) (1/2) ![15/2]
    ∧ mean_variance_sharpe_maximization tableB (1/2) (solverConst ![15/2])
        = Except.ok ![1] := by
  refine ⟨fun k => by fin_cases k <;>
      norm_num [sampleMean, tableB, Fin.sum_univ_two],
    tableB_rf_half_optimal, ?_⟩
  unfold mean_variance_sharpe_maximization portfolioOptimizer solverConst
  refine congrArg Except.ok (funext fun i => ?_)
  fin_cases i
  norm_num [normalizeWeights, Fin.sum_univ_one]

/-- Claim C2, amended to the code: with rf >= 0 and some column mean above
rf the QP the source builds is feasible, and whenever the solver returns an
optimal point the run returns it divided by its (positive) sum — a vector
of length n in the input column order whose entries are nonnegative and sum
exactly to 1. -/
theorem C2_long_only_normalized {T n : ℕ} (R : ReturnsTable T n) (rf : ℚ)
    (solver : Solver n) (w : Fin n → ℚ)
    (_hT : 2 ≤ T) (_hn : 2 ≤ n) (hrf : 0 ≤ rf)
    (hex : ∃ k, rf < sampleMean R k)
    (hsol : solver (quadForm (sampleCov R)) (qpFeasible (sampleMean R) rf)
      = some w)
    (hopt : isOptimal (sampleMean R) (sampleCov R) rf w) :
    (∃ v, qpFeasible (sampleMean R) rf v)
    ∧ mean_variance_sharpe_maximization R rf solver
        = Except.ok (normalizeWeights w)
    ∧ (∑ i, normalizeWeights w i) = 1
    ∧ ∀ i, 0 ≤ normalizeWeights w i := by
  obtain ⟨k, hk⟩ := hex
  have hmuk : 0 < sampleMean R k := lt_of_le_of_lt hrf hk
  have hone : (0:ℚ) < 1 + rf := by linarith
  have hfeas : ∃ v, qpFeasible (sampleMean R) rf v := by
    have hvk : (fun i => if i = k then (1 + rf) / sampleMean R k else 0) k
        = (1 + rf) / sampleMean R k := by simp
    refine ⟨fun i => if i = k then (1 + rf) / sampleMean R k else 0, ?_, ?_⟩
    · rw [Finset.sum_eq_single_of_mem k (Finset.mem_univ k)
        (fun b _ hb => by simp [hb])]
      rw [hvk]
      field_simp
    · intro i
      by_cases hik : i = k
      · rw [hik, hvk]
        exact div_nonneg hone.le hmuk.le
      · have hvi : (fun j => if j = k then (1 + rf) / sampleMean R k else 0) i
            = 0 := by simp [hik]
        rw [hvi]
  obtain ⟨⟨hs, hnn⟩, _⟩ := hopt
  have hwpos : 0 < ∑ j, w j := by
    rcases (Finset.sum_nonneg fun j _ => hnn j).lt_or_eq with h | h
    · exact h
    · exfalso
      have hz := (Finset.sum_eq_zero_iff_of_nonneg fun j _ => hnn j).mp h.symm
      have hzero : (∑ i, sampleMean R i * w i) = 0 :=
        Finset.sum_eq_zero fun i _ => by
          rw [hz i (Finset.mem_univ i), mul_zero]
      rw [hzero] at hs
      linarith
  have hok : mean_variance_sharpe_maximization R rf solver
      = Except.ok (normalizeWeights w) := by
    unfold mean_variance_sharpe_maximization portfolioOptimizer
    rw [hsol]
  refine ⟨hfeas, hok, ?_, fun i => div_nonneg (hnn i) hwpos.le⟩
  unfold normalizeWeights
  rw [← Finset.sum_div, div_self hwpos.ne']

/-- The two-asset QP over tableA (means (1,1), covariance diag(1,3)) at
rf = 0 is minimized at (3/4, 1/4). -/
lemma tableA_optimal :
    isOptimal (sampleMean tableA) (sampleCov tableA) 0 ![3/4, 1/4] := by
  have m0 : sampleMean tableA 0 = 1 := by
    norm_num [sampleMean, tableA, Fin.sum_univ_three]
  have m1 : sampleMean tableA 1 = 1 := by
    norm_num [sampleMean, tableA, Fin.sum_univ_three]
  have c00 : sampleCov tableA 0 0 = 1 := by
    norm_num [sampleCov, sampleMean, tableA, Fin.sum_univ_three]
  have c01 : sampleCov tableA 0 1 = 0 := by
    norm_num [sampleCov, sampleMean, tableA, Fin.sum_univ_three]
  have c10 : sampleCov tableA 1 0 = 0 := by
    norm_num [sampleCov, sampleMean, tableA, Fin.sum_univ_three]
  have c11 : sampleCov tableA 1 1 = 3 := by
    norm_num [sampleCov, sampleMean, tableA, Fin.sum_univ_three]
  have hq : ∀ v : Fin 2 → ℚ, quadForm (sampleCov tableA) v
      = v 0 * 1 * v 0 + v 0 * 0 * v 1 + (v 1 * 0 * v 0 + v 1 * 3 * v 1) := by
    intro v
    rw [quadForm, Fin.sum_univ_two, Fin.sum_univ_two, Fin.sum_univ_two,
      c00, c01, c10, c11]
  constructor
  · refine ⟨?_, fun i => by fin_cases i <;> norm_num⟩
    rw [Fin.sum_univ_two, m0, m1]
    norm_num
  · intro v hv
    obtain ⟨hs, hnn⟩ := hv
    rw [Fin.sum_univ_two, m0, m1] at hs
    rw [hq, hq]
    have hsum : v 0 + v 1 = 1 := by linarith
    norm_num
    nlinarith [sq_nonneg (v 0 - 3 * v 1), hsum]

/-- Witness for the amended C2 at tableA with its optimal point. -/
theorem C2_long_only_normalized_witness :
    (∃ v, qpFeasible (sampleMean tableA) 0 v)
    ∧ mean_variance_sharpe_maximization tableA 0 (solverConst ![3/4, 1/4])
        = Except.ok (normalizeWeights ![3/4, 1/4])
    ∧ (∑ i, normalizeWeights (![3/4, 1/4] : Fin 2 → ℚ) i) = 1
    ∧ ∀ i, 0 ≤ normalizeWeights (![3/4, 1/4] : Fin 2 → ℚ) i :=
  C2_long_only_normalized tableA 0 (solverConst ![3/4, 1/4]) ![3/4, 1/4]
    (by norm_num) (by norm_num) le_rfl
    ⟨0, by norm_num [sampleMean, tableA, Fin.sum_univ_three]⟩
    rfl tableA_optimal

/-- Counterexample to C2 as claimed: over tableC with rf = -1/2 every
hypothesis of the claim holds (2 assets, 2 observations, the first mean
-1/5 exceeds rf) yet no w >= 0 satisfies mu^T w - rf = 1, so any solver
returning only feasible points returns nothing and the run errors instead
of producing a weight vector. -/
theorem C2_counterexample :
    (-1/2 < sampleMean tableC 0)
    ∧ (∀ w, ¬ qpFeasible (sampleMean tableC) (-1/2) w)
    ∧ (∀ solver : Solver 2,
        (∀ w, solver (quadForm (sampleCov tableC))
            (qpFeasible (sampleMean tableC) (-1/2)) = some w →
          qpFeasible (sampleMean tableC) (-1/2) w) →
        mean_variance_sharpe_maximization tableC (-1/2) solver
          = Except.error optimizationFailedMsg) := by
  have m0 : sampleMean tableC 0 = -1/5 := by
    norm_num [sampleMean, tableC, Fin.sum_univ_two]
  have m1 : sampleMean tableC 1 = -3/10 := by
    norm_num [sampleMean, tableC, Fin.sum_univ_two]
  have hinf : ∀ w, ¬ qpFeasible (sampleMean tableC) (-1/2) w := by
    rintro w ⟨hs, hnn⟩
    rw [Fin.sum_univ_two, m0, m1] at hs
    have h0 := hnn 0
    have h1 := hnn 1
    linarith
  refine ⟨by rw [m0]; norm_num, hinf, fun solver hsound =>
    generic_error_of_infeasible tableC (-1/2) solver hinf hsound⟩

/-- Claim C8, amended to the code: in a one-asset universe, whenever the
mean is positive, rf > -1 and the solver returns a feasible point, the
returned weight is exactly 1; and whenever the QP is infeasible the run
ends in the one generic ValueError (no InfeasibleProblemError exists). -/
theorem C8_single_asset {T : ℕ} (R : ReturnsTable T 1) (rf : ℚ)
    (solver : Solver 1) :
    (∀ w, 0 < sampleMean R 0 → -1 < rf →
        solver (quadForm (sampleCov R)) (qpFeasible (sampleMean R) rf)
          = some w →
        qpFeasible (sampleMean R) rf w →
        mean_variance_sharpe_maximization R rf solver
          = Except.ok (fun _ => (1 : ℚ)))
    ∧ ((∀ w, ¬ qpFeasible (sampleMean R) rf w) →
        (∀ w, solver (quadForm (sampleCov R)) (qpFeasible (sampleMean R) rf)
            = some w →
          qpFeasible (sampleMean R) rf w) →
        mean_variance_sharpe_maximization R rf solver
          = Except.error optimizationFailedMsg) := by
  constructor
  · intro w hm hrf hsol hfeas
    obtain ⟨hs, hnn⟩ := hfeas
    rw [Fin.sum_univ_one] at hs
    have hw0 : 0 < w 0 := by
      rcases (hnn 0).lt_or_eq with h | h
      · exact h
      · exfalso
        rw [← h, mul_zero] at hs
        linarith
    unfold mean_variance_sharpe_maximization portfolioOptimizer
    rw [hsol]
    refine congrArg Except.ok (funext fun i => ?_)
    have hi : i = 0 := Subsingleton.elim i 0
    rw [hi]
    unfold normalizeWeights
    rw [Fin.sum_univ_one]
    exact div_self hw0.ne'
  · exact fun hinf hsound =>
      generic_error_of_infeasible R rf solver hinf hsound

/-- Witness for the amended C8: tableB at rf = 0 with the feasible solver
solution w = 5 yields the weight vector (1). -/
theorem C8_single_asset_witness :
    mean_variance_sharpe_maximization tableB 0 (solverConst ![5])
      = Except.ok (fun _ => (1 : ℚ)) :=
  (C8_single_asset tableB 0 (solverConst ![5])).1 ![5]
    (by norm_num [sampleMean, tableB, Fin.sum_univ_two])
    (by norm_num) rfl
    ⟨by rw [Fin.sum_univ_one];
        norm_num [sampleMean, tableB, Fin.sum_univ_two],
      fun i => by fin_cases i <;> norm_num⟩

/-- Counterexample to C8 as claimed: tableE has one asset whose mean -1/5
strictly exceeds rf = -1/2, yet the QP is infeasible, so any solver
returning only feasible points returns nothing and the run errors instead
of returning the weight 1.0. -/
theorem C8_counterexample :
    (-1/2 < sampleMean tableE 0)
    ∧ (∀ w, ¬ qpFeasible (sampleMean tableE) (-1/2) w)
    ∧ (∀ solver : Solver 1,
        (∀ w, solver (quadForm (sampleCov tableE))
            (qpFeasible (sampleMean tableE) (-1/2)) = some w →
          qpFeasible (sampleMean tableE) (-1/2) w) →
        mean_variance_sharpe_maximization tableE (-1/2) solver
          = Except.error optimizationFailedMsg) := by
  have m0 : sampleMean tableE 0 = -1/5 := by
    norm_num [sampleMean, tableE, Fin.sum_univ_two]
  have hinf : ∀ w, ¬ qpFeasible (sampleMean tableE) (-1/2) w := by
    rintro w ⟨hs, hnn⟩
    rw [Fin.sum_univ_one, m0] at hs
    have h0 := hnn 0
    linarith
  refine ⟨by rw [m0]; norm_num, hinf, fun solver hsound =>
    generic_error_of_infeasible tableE (-1/2) solver hinf hsound⟩

/-- Scaling the quadratic-form matrix scales the objective. -/
lemma quadForm_scaleMat {n : ℕ} (c : ℚ) (S : Fin n → Fin n → ℚ)
    (w : Fin n → ℚ) :
    quadForm (fun i j => c * S i j) w = c * quadForm S w := by
  unfold quadForm
  rw [Finset.mul_sum]
  refine Finset.sum_congr rfl fun i _ => ?_
  rw [Finset.mul_sum]
  refine Finset.sum_congr rfl fun j _ => ?_
  ring

/-- Scaling the vector scales the quadratic form by the square. -/
lemma quadForm_smulVec {n : ℕ} (a : ℚ) (S : Fin n → Fin n → ℚ)
    (w : Fin n → ℚ) :
    quadForm S (fun i => a * w i) = a ^ 2 * quadForm S w := by
  unfold quadForm
  rw [Finset.mul_sum]
  refine Finset.sum_congr rfl fun i _ => ?_
  rw [Finset.mul_sum]
  refine Finset.sum_congr rfl fun j _ => ?_
  ring

/-- Dividing the vector by a nonzero scalar divides the quadratic form by
its square. -/
lemma quadForm_div_scale {n : ℕ} (S : Fin n → Fin n → ℚ) (c : ℚ) (hc : c ≠ 0)
    (w : Fin n → ℚ) :
    c ^ 2 * quadForm S (fun i => w i / c) = quadForm S w := by
  have hw : (fun i => c * (w i / c)) = w := funext fun i => by
    rw [mul_comm, div_mul_cancel₀ _ hc]
  calc c ^ 2 * quadForm S (fun i => w i / c)
      = quadForm S (fun i => c * (w i / c)) := (quadForm_smulVec c S _).symm
    _ = quadForm S w := by rw [hw]

/-- Claim C7: multiplying the covariance matrix by c > 0 (rf = 0, mean held
fixed) leaves the QP's optimal set unchanged, so a solver returning the
same optimum makes the scaled and unscaled runs return the identical
normalized weight vector. -/
theorem C7_scale_invariance {n : ℕ} (mu : Fin n → ℚ) (S : Fin n → Fin n → ℚ)
    (c : ℚ) (w : Fin n → ℚ) (solver solver2 : Solver n)
    (hc : 0 < c)
    (hsol : solver (quadForm (fun i j => c * S i j)) (qpFeasible mu 0)
      = some w)
    (hsol2 : solver2 (quadForm S) (qpFeasible mu 0) = some w) :
    (∀ v, isOptimal mu (fun i j => c * S i j) 0 v ↔ isOptimal mu S 0 v)
    ∧ portfolioOptimizer mu (fun i j => c * S i j) 0 solver
        = portfolioOptimizer mu S 0 solver2 := by
  constructor
  · intro v
    constructor
    · rintro ⟨hfeas, hmin⟩
      refine ⟨hfeas, fun u hu => ?_⟩
      have h := hmin u hu
      rw [quadForm_scaleMat, quadForm_scaleMat] at h
      exact le_of_mul_le_mul_left h hc
    · rintro ⟨hfeas, hmin⟩
      refine ⟨hfeas, fun u hu => ?_⟩
      rw [quadForm_scaleMat, quadForm_scaleMat]
      exact mul_le_mul_of_nonneg_left (hmin u hu) hc.le
  · unfold portfolioOptimizer
    rw [hsol, hsol2]

/-- Witness for C7: the one-asset QP with covariance (1) scaled by 2. -/
theorem C7_scale_invariance_witness :
    (∀ v, isOptimal ![(1:ℚ)] (fun i j => 2 * (![![(1:ℚ)]]) i j) 0 v
      ↔ isOptimal ![(1:ℚ)] ![![(1:ℚ)]] 0 v)
    ∧ portfolioOptimizer ![(1:ℚ)] (fun i j => 2 * (![![(1:ℚ)]]) i j) 0
        (solverConst ![1])
      = portfolioOptimizer ![(1:ℚ)] ![![(1:ℚ)]] 0 (solverConst ![1]) :=
  C7_scale_invariance ![(1:ℚ)] ![![(1:ℚ)]] 2 ![1] (solverConst ![1])
    (solverConst ![1]) (by norm_num) rfl rfl

/-- The constraint set at rate rf is the constraint set at rate 0 scaled by
1 + rf. -/
lemma qpFeasible_rf_scale {n : ℕ} (mu : Fin n → ℚ) (rf : ℚ) (w : Fin n → ℚ)
    (h : 0 < 1 + rf) :
    qpFeasible mu rf w ↔ qpFeasible mu 0 (fun i => w i / (1 + rf)) := by
  have hsum : (∑ i, mu i * (w i / (1 + rf)))
      = (∑ i, mu i * w i) / (1 + rf) := by
    rw [Finset.sum_div]
    exact Finset.sum_congr rfl fun i _ => (mul_div_assoc _ _ _).symm
  unfold qpFeasible
  constructor
  · rintro ⟨hs, hnn⟩
    refine ⟨?_, fun i => div_nonneg (hnn i) h.le⟩
    rw [hsum, show (∑ i, mu i * w i) = 1 + rf by linarith, div_self h.ne']
    norm_num
  · rintro ⟨hs, hnn⟩
    constructor
    · rw [hsum, sub_zero] at hs
      have hval : (∑ i, mu i * w i) = 1 + rf :=
        (div_eq_one_iff_eq h.ne').mp hs
      linarith
    · intro i
      have h2 := mul_nonneg (hnn i) h.le
      rw [div_mul_cancel₀ _ h.ne'] at h2
      exact h2

/-- Optimality at rate rf is optimality at rate 0 of the vector divided by
1 + rf. -/
lemma isOptimal_rf_scale {n : ℕ} (mu : Fin n → ℚ) (S : Fin n → Fin n → ℚ)
    (rf : ℚ) (w : Fin n → ℚ) (h : 0 < 1 + rf) :
    isOptimal mu S rf w ↔ isOptimal mu S 0 (fun i => w i / (1 + rf)) := by
  have hc2 : (0:ℚ) < (1 + rf) ^ 2 := by positivity
  constructor
  · rintro ⟨hfeas, hmin⟩
    refine ⟨(qpFeasible_rf_scale mu rf w h).mp hfeas, fun v hv => ?_⟩
    have hu : qpFeasible mu rf (fun i => (1 + rf) * v i) := by
      rw [qpFeasible_rf_scale mu rf _ h]
      have hcancel : (fun i => ((1 + rf) * v i) / (1 + rf)) = v :=
        funext fun i => mul_div_cancel_left₀ _ h.ne'
      rw [hcancel]
      exact hv
    have h2 := hmin _ hu
    rw [quadForm_smulVec] at h2
    have h3 := quadForm_div_scale S (1 + rf) h.ne' w
    refine le_of_mul_le_mul_left ?_ hc2
    rw [h3]
    exact h2
  · rintro ⟨hfeas, hmin⟩
    refine ⟨(qpFeasible_rf_scale mu rf w h).mpr hfeas, fun u hu => ?_⟩
    have hv := (qpFeasible_rf_scale mu rf u h).mp hu
    have h2 := hmin _ hv
    have h3 := mul_le_mul_of_nonneg_left h2 hc2.le
    rw [quadForm_div_scale S (1 + rf) h.ne' w,
      quadForm_div_scale S (1 + rf) h.ne' u] at h3
    exact h3

/-- Normalization is invariant under division by a nonzero scalar. -/
lemma normalizeWeights_div {n : ℕ} (w : Fin n → ℚ) (c : ℚ) (hc : c ≠ 0) :
    normalizeWeights (fun i => w i / c) = normalizeWeights w := by
  funext i
  unfold normalizeWeights
  rw [show (∑ j, w j / c) = (∑ j, w j) / c from (Finset.sum_div _ _ _).symm]
  by_cases h : (∑ j, w j) = 0
  · rw [h]
    simp
  · field_simp

/-- Claim C10: since the constraint is mu^T w = 1 + rf, a change of rf with
1 + rf > 0 only rescales the raw QP solution by 1 + rf: w is optimal at rf
exactly when w / (1 + rf) is optimal at 0, normalization erases the scale,
and runs whose solvers return these matching solutions produce identical
output — the rf parameter never changes the returned portfolio. -/
theorem C10_rf_only_rescales {n : ℕ} (mu : Fin n → ℚ) (S : Fin n → Fin n → ℚ)
    (rf : ℚ) (w : Fin n → ℚ) (hrf : 0 < 1 + rf) :
    (isOptimal mu S rf w ↔ isOptimal mu S 0 (fun i => w i / (1 + rf)))
    ∧ normalizeWeights (fun i => w i / (1 + rf)) = normalizeWeights w
    ∧ ∀ solver solver0 : Solver n,
        solver (quadForm S) (qpFeasible mu rf) = some w →
        solver0 (quadForm S) (qpFeasible mu 0)
          = some (fun i => w i / (1 + rf)) →
        portfolioOptimizer mu S rf solver
          = portfolioOptimizer mu S 0 solver0 := by
  refine ⟨isOptimal_rf_scale mu S rf w hrf,
    normalizeWeights_div w (1 + rf) hrf.ne', fun solver solver0 h1 h2 => ?_⟩
  unfold portfolioOptimizer
  rw [h1, h2]
  show Except.ok (normalizeWeights w)
    = Except.ok (normalizeWeights fun i => w i / (1 + rf))
  rw [normalizeWeights_div w (1 + rf) hrf.ne']

/-- Witness for C10: the one-asset QP with mean 1 at rf = 1, where the raw
solution 2 is the rf = 0 solution 1 rescaled by 1 + rf = 2. -/
theorem C10_rf_only_rescales_witness :
    (isOptimal ![(1:ℚ)] ![![(1:ℚ)]] 1 ![2]
      ↔ isOptimal ![(1:ℚ)] ![![(1:ℚ)]] 0 (fun i => (![(2:ℚ)]) i / (1 + 1)))
    ∧ normalizeWeights (fun i => (![(2:ℚ)]) i / (1 + 1))
        = normalizeWeights ![(2:ℚ)]
    ∧ ∀ solver solver0 : Solver 1,
        solver (quadForm ![![(1:ℚ)]]) (qpFeasible ![(1:ℚ)] 1) = some ![2] →
        solver0 (quadForm ![![(1:ℚ)]]) (qpFeasible ![(1:ℚ)] 0)
          = some (fun i => (![(2:ℚ)]) i / (1 + 1)) →
        portfolioOptimizer ![(1:ℚ)] ![![(1:ℚ)]] 1 solver
          = portfolioOptimizer ![(1:ℚ)] ![![(1:ℚ)]] 0 solver0 :=
  C10_rf_only_rescales ![(1:ℚ)] ![![(1:ℚ)]] 1 ![2] (by norm_num)

/-- At rf = -1 the zero vector is feasible for the tableB QP (the excess
constraint reads mu^T w = 0) and, the objective being nonnegative, optimal. -/
lemma tableB_zero_optimal :
    isOptimal (sampleMean tableB) (sampleCov tableB) (-1) ![0] := by
  have hc : sampleCov tableB 0 0 = 1/50 := by
    norm_num [sampleCov, sampleMean, tableB, Fin.sum_univ_two]
  have hq : ∀ u : Fin 1 → ℚ,
      quadForm (sampleCov tableB) u = u 0 * sampleCov tableB 0 0 * u 0 := by
    intro u
    rw [quadForm, Fin.sum_univ_one, Fin.sum_univ_one]
  constructor
  · refine ⟨?_, fun i => by fin_cases i <;> norm_num⟩
    rw [Fin.sum_univ_one]
    norm_num
  · intro v _
    rw [hq, hq, hc]
    have h := sq_nonneg (v 0)
    norm_num
    nlinarith [h]

/-- Counterexample to C6 as claimed: at rf = -1 over tableB the zero vector
is the QP optimum, its sum is zero, and the source still returns an ok
value — the unguarded division happens and no NormalizationError exists. -/
theorem C6_counterexample :
    isOptimal (sampleMean tableB) (sampleCov tableB) (-1) ![0]
    ∧ (∑ j, (![0] : Fin 1 → ℚ) j) = 0
    ∧ mean_variance_sharpe_maximization tableB (-1) (solverConst ![0])
        = Except.ok (normalizeWeights ![0]) :=
  ⟨tableB_zero_optimal, by simp, rfl⟩

end RobustFactorModel
